import Mathlib

/-!
# Verification of the concurrent Solana transaction broadcaster

Shallow embedding of the transaction-sending core of the repository
(`solana-rpc-transactions/src/main.rs`, with the identical helpers in
`task-3/src/solana.rs`), together with proofs of the spec's claims about it.

Addresses, signatures, blockhashes and opaque error payloads are abstracted
as natural numbers; the remote ledger is modelled as an environment
(`LedgerBehavior`) recording, per dispatch unit, the result each RPC call
would return and the latency each network call contributes.  Time is
modelled additively: a recorded duration is the sum of the latencies of the
calls that happen between the two `Instant` samples.
-/

namespace Broadcaster

/-- Public key of an account (abstracted). -/
abbrev Pubkey := Nat

/-- A transaction signature returned by the ledger (abstracted). -/
abbrev Signature := Nat

/-- A recent blockhash: the short-lived block reference (abstracted). -/
abbrev BlockRef := Nat

/-- Opaque payload of a submission error (`send_and_confirm_transaction`). -/
abbrev SubmitErr := Nat

/-- Opaque payload of a transaction-execution error stored in a status. -/
abbrev TxErr := Nat

/-- `ClientError` as the unit sees it: either an RPC-level failure of the
status query, or a transaction error converted via `err.into()` in
`check_transaction_status`. -/
inductive ClientErr where
  | rpc (code : Nat)
  | fromTx (e : TxErr)
deriving DecidableEq, Repr

deriving instance DecidableEq for Except

/-- What the remote ledger does for one dispatch unit: the result of the
`get_latest_blockhash` call (`none` models the call failing — the code then
panics through `.expect`), the result of `send_and_confirm_transaction`,
the result of `get_signature_status`, and the latency of each of the three
network calls. -/
structure LedgerBehavior where
  fetchResult : Option BlockRef
  submitResult : Except SubmitErr Signature
  statusResult : Except ClientErr (Option (Except TxErr Unit))
  tFetch : Nat
  tSubmit : Nat
  tStatus : Nat
deriving DecidableEq, Repr

/-- The signed transfer transaction built by `send_sol`:
`system_instruction::transfer(&sender.pubkey(), receiver, amount)` wrapped
with the sender as fee payer and signed against the fetched blockhash. -/
structure Transaction where
  fromAddr : Pubkey
  toAddr : Pubkey
  amount : Nat
  payer : Pubkey
  blockhash : BlockRef
deriving DecidableEq, Repr

/-- `Transaction::new_signed_with_payer` applied to the single transfer
instruction, as `send_sol` builds it. -/
def mkTransaction (sender receiver : Pubkey) (amount : Nat) (bh : BlockRef) :
    Transaction :=
  { fromAddr := sender, toAddr := receiver, amount := amount,
    payer := sender, blockhash := bh }

/-- `check_transaction_status` from `main.rs` (and `task-3/src/solana.rs`):
matches on `client.get_signature_status(signature)`.
`Ok(Some(Ok(_)))` and `Ok(None)` yield `Ok(())`; `Ok(Some(Err(err)))`
yields `Err(err.into())`; `Err(err)` yields `Err(err)`. -/
def check_transaction_status
    (statusResult : Except ClientErr (Option (Except TxErr Unit))) :
    Except ClientErr Unit :=
  match statusResult with
  | .ok (some (.ok _)) => .ok ()
  | .ok (some (.error e)) => .error (ClientErr.fromTx e)
  | .ok none => .ok ()
  | .error e => .error e

/-- Terminal state of a dispatch unit.  The spec's `TransactionOutcome`
variants correspond to the control paths of the spawned task in
`send_transactions`; `unitPanicked` records the path in which the task dies
in a panic (the `.expect` on `get_latest_blockhash`) and produces no
converted outcome. -/
inductive TransactionOutcome where
  | unitPanicked
  | submitFailed (e : SubmitErr)
  | confirmFailed (sig : Signature) (e : ClientErr)
  | submitted (sig : Signature) (elapsed : Nat)
deriving DecidableEq, Repr

/-- Whether a unit's terminal state is a converted `TransactionOutcome`
variant (as opposed to the unit having died in a panic). -/
def TransactionOutcome.converted : TransactionOutcome → Bool
  | .unitPanicked => false
  | _ => true

/-- Full record of one dispatch unit's run: its terminal state, how many
times it issued each of the three RPC calls, and the transaction it built
(if it got that far). -/
structure UnitTrace where
  outcome : TransactionOutcome
  fetchCalls : Nat
  submitCalls : Nat
  statusCalls : Nat
  builtTx : Option Transaction
deriving DecidableEq, Repr

/-- One spawned task of `send_transactions`, `send_sol` inlined.
The task samples `start_time = Instant::now()` first, then `send_sol`
fetches the blockhash (panicking via `.expect` on failure), builds and
signs the transaction, and submits it.  On submission failure the task
logs and returns (`SubmitFailed`); on success it samples
`duration = start_time.elapsed()` — so the recorded duration is
`tFetch + tSubmit` — and then calls `check_transaction_status` once,
mapping its error to a logged `ConfirmFailed` and its success to
`Submitted`. -/
def runUnit (env : LedgerBehavior) (sender receiver : Pubkey) (amount : Nat) :
    UnitTrace :=
  match env.fetchResult with
  | none =>
      { outcome := .unitPanicked, fetchCalls := 1, submitCalls := 0,
        statusCalls := 0, builtTx := none }
  | some bh =>
      let tx := mkTransaction sender receiver amount bh
      match env.submitResult with
      | .error e =>
          { outcome := .submitFailed e, fetchCalls := 1, submitCalls := 1,
            statusCalls := 0, builtTx := some tx }
      | .ok sig =>
          let elapsed := env.tFetch + env.tSubmit
          match check_transaction_status env.statusResult with
          | .ok _ =>
              { outcome := .submitted sig elapsed, fetchCalls := 1,
                submitCalls := 1, statusCalls := 1, builtTx := some tx }
          | .error e =>
              { outcome := .confirmFailed sig e, fetchCalls := 1,
                submitCalls := 1, statusCalls := 1, builtTx := some tx }

/-- `send_transactions`: for every sender wallet and every receiver it
spawns one task (the nested `for` / `for_each` loops) and then joins every
task.  The batch report is the joined list of per-pair unit traces, one
entry per (sender, receiver) pair of the cross product, in spawn order. -/
def send_transactions (envf : Pubkey → Pubkey → LedgerBehavior)
    (senders receivers : List Pubkey) (amount : Nat) :
    List ((Pubkey × Pubkey) × UnitTrace) :=
  senders.flatMap fun s =>
    receivers.map fun r => ((s, r), runUnit (envf s r) s r amount)

/-- The (sender, receiver) pairs a batch dispatches, in spawn order. -/
def dispatchedPairs (senders receivers : List Pubkey) :
    List (Pubkey × Pubkey) :=
  senders.flatMap fun s => receivers.map fun r => (s, r)

/-! ## The signing-key byte-list decoder

`parse_bytes_from_string` from `main.rs` (identical in
`task-3/src/solana.rs`).  Rust strings are modelled as `List Char`;
`str::trim` is modelled over the ASCII whitespace characters, which is the
fragment the claims exercise. -/

/-- The characters stripped by `input.trim_matches(['[', ']'].as_ref())`. -/
def isBracketChar (c : Char) : Bool := c == '[' || c == ']'

/-- The Unicode White_Space property, the character class Rust's
`char::is_whitespace` tests and `str::trim` strips from each entry:
U+0009–U+000D, U+0020, U+0085, U+00A0, U+1680, U+2000–U+200A, U+2028,
U+2029, U+202F, U+205F and U+3000. -/
def isSpaceChar (c : Char) : Bool :=
  decide ((9 ≤ c.toNat ∧ c.toNat ≤ 13) ∨ c.toNat = 32 ∨ c.toNat = 133 ∨
    c.toNat = 160 ∨ c.toNat = 5760 ∨ (8192 ≤ c.toNat ∧ c.toNat ≤ 8202) ∨
    c.toNat = 8232 ∨ c.toNat = 8233 ∨ c.toNat = 8239 ∨ c.toNat = 8287 ∨
    c.toNat = 12288)

/-- Strip every leading and trailing character satisfying `p`
(Rust's `trim_matches` / `trim`). -/
def trimEnds (p : Char → Bool) (l : List Char) : List Char :=
  ((l.dropWhile p).reverse.dropWhile p).reverse

/-- Rust's `str::split(',')`: the empty string yields one empty piece, and
every comma separates two (possibly empty) pieces. -/
def splitOnComma : List Char → List (List Char)
  | [] => [[]]
  | c :: cs =>
    if c == ',' then [] :: splitOnComma cs
    else
      match splitOnComma cs with
      | [] => [[c]]
      | g :: gs => (c :: g) :: gs

/-- One step of decimal accumulation: append the digit `c` to `a`. -/
def decStep (a : Nat) (c : Char) : Nat := a * 10 + (c.toNat - 48)

/-- Digit-accumulating core of Rust's `u16::from_str`: consumes decimal
digits left to right, failing on a non-digit character and on any
intermediate value exceeding `u16::MAX = 65535` (`PosOverflow`). -/
def parseDigitsAux : List Char → Nat → Option Nat
  | [], acc => some acc
  | c :: cs, acc =>
    if c.isDigit then
      if 65535 < decStep acc c then none else parseDigitsAux cs (decStep acc c)
    else none

/-- Rust's `str::parse::<u16>()`: an optional sign followed by at least one
digit; a `-` sign is accepted only when the digits denote zero. -/
def parseU16 (l : List Char) : Option Nat :=
  match l with
  | [] => none
  | c :: rest =>
    if c == '+' then
      if rest.isEmpty then none else parseDigitsAux rest 0
    else if c == '-' then
      if rest.isEmpty then none
      else
        match parseDigitsAux rest 0 with
        | some 0 => some 0
        | _ => none
    else parseDigitsAux (c :: rest) 0

/-- The per-entry closure of `parse_bytes_from_string`:
`s.trim().parse::<u16>()`, mapping a parse failure to an error string, then
rejecting values above 255 and casting the rest to a byte.  The formatted
payloads of the Rust error strings are abstracted to fixed messages. -/
def parse_byte_entry (s : List Char) : Except String Nat :=
  match parseU16 (trimEnds isSpaceChar s) with
  | none => .error "Failed to parse number"
  | some num =>
      if 255 < num then .error "Number out of byte range" else .ok num

/-- Rust's `collect::<Result<Vec<u8>, _>>()`: the values in order if every
entry succeeded, otherwise the first error. -/
def collectResults : List (Except String Nat) → Except String (List Nat)
  | [] => .ok []
  | .error e :: _ => .error e
  | .ok a :: rest =>
    match collectResults rest with
    | .error e => .error e
    | .ok as => .ok (a :: as)

/-- `parse_bytes_from_string`: strip the surrounding bracket characters,
split on commas, parse each entry as a byte, and collect. -/
def parse_bytes_from_string (input : List Char) : Except String (List Nat) :=
  let trimmed := trimEnds isBracketChar input
  collectResults ((splitOnComma trimmed).map parse_byte_entry)

/-! Spec-side vocabulary for stating the decoder claims. -/

/-- Decimal accumulation of a digit string onto an initial value. -/
def decValueFrom (acc : Nat) (l : List Char) : Nat := l.foldl decStep acc

/-- The numeric value of a decimal digit string. -/
def decValue (l : List Char) : Nat := decValueFrom 0 l

/-- All characters are decimal digits. -/
def isDigits (l : List Char) : Bool := l.all Char.isDigit

/-- Join entries with a single comma separator (building test inputs). -/
def interComma : List (List Char) → List Char
  | [] => []
  | [e] => e
  | e :: rest => e ++ ',' :: interComma rest

/-- A bracketed, comma-separated rendering of a list of entries. -/
def renderList (es : List (List Char)) : List Char :=
  '[' :: (interComma es ++ [']'])

/-- An entry that denotes a byte: a decimal digit string with value at most
255, surrounded by optional whitespace. -/
def goodByteEntry (e : List Char) : Prop :=
  ∃ w1 d w2, e = w1 ++ d ++ w2 ∧ w1.all isSpaceChar = true ∧
    w2.all isSpaceChar = true ∧ d ≠ [] ∧ isDigits d = true ∧ decValue d ≤ 255

/-- The byte an entry denotes (its whitespace-trimmed decimal value). -/
def entryVal (e : List Char) : Nat := decValue (trimEnds isSpaceChar e)

/-- An entry free of the separator and bracket characters, so that the
bracketed comma-joined rendering splits back into the same entries. -/
def sepFree (e : List Char) : Prop := ∀ c ∈ e, c ≠ ',' ∧ c ≠ '[' ∧ c ≠ ']'

/-- A non-numeric entry: after whitespace trimming it contains a character
that is neither a decimal digit nor a sign. -/
def nonNumericEntry (e : List Char) : Prop :=
  ∃ c ∈ trimEnds isSpaceChar e, c.isDigit = false ∧ c ≠ '+' ∧ c ≠ '-'

/-! Concrete environments used to evaluate the model at specific inputs. -/

/-- A unit whose three calls all succeed, with distinct injected latencies:
the blockhash fetch takes 5, the submission takes 3, the status poll 11. -/
def timingEnv : LedgerBehavior :=
  { fetchResult := some 7, submitResult := .ok 42, statusResult := .ok none,
    tFetch := 5, tSubmit := 3, tStatus := 11 }

/-- A unit whose `get_latest_blockhash` call fails, so the `.expect` in
`send_sol` panics the task. -/
def panicEnv : LedgerBehavior :=
  { fetchResult := none, submitResult := .ok 0, statusResult := .ok none,
    tFetch := 0, tSubmit := 0, tStatus := 0 }

/-- A unit whose submission is rejected by the ledger. -/
def submitFailEnv : LedgerBehavior :=
  { fetchResult := some 9, submitResult := .error 77, statusResult := .ok none,
    tFetch := 1, tSubmit := 1, tStatus := 1 }

end Broadcaster

namespace Broadcaster

/-! ## Dispatcher lemmas -/

/-- Every unit issues the blockhash fetch exactly once. -/
theorem runUnit_fetchCalls (env : LedgerBehavior) (s r : Pubkey) (a : Nat) :
    (runUnit env s r a).fetchCalls = 1 := by
  unfold runUnit
  rcases env.fetchResult with _ | bh
  · rfl
  · rcases env.submitResult with e | sig
    · rfl
    · rcases h : check_transaction_status env.statusResult with u | e <;> simp [h]

/-- When the fetch succeeds, the unit builds its transaction from the
blockhash its own fetch returned. -/
theorem runUnit_builtTx (env : LedgerBehavior) (s r : Pubkey) (a : Nat)
    (bh : BlockRef) (hf : env.fetchResult = some bh) :
    (runUnit env s r a).builtTx = some (mkTransaction s r a bh) := by
  unfold runUnit
  rw [hf]
  rcases env.submitResult with e | sig
  · rfl
  · rcases h : check_transaction_status env.statusResult with u | e <;> simp [h]

/-- The report of a batch has one entry per (sender, receiver) pair. -/
theorem length_send_transactions (envf : Pubkey → Pubkey → LedgerBehavior)
    (senders receivers : List Pubkey) (amount : Nat) :
    (send_transactions envf senders receivers amount).length =
      senders.length * receivers.length := by
  induction senders with
  | nil => simp [send_transactions]
  | cons s ss ih =>
      simp only [send_transactions, List.flatMap_cons, List.length_append,
        List.length_map, List.length_cons] at *
      rw [ih, Nat.succ_mul, Nat.add_comm]

/-- The pairs of a batch report are exactly the cross product
senders ×ˢ receivers, in spawn order. -/
theorem map_fst_send_transactions (envf : Pubkey → Pubkey → LedgerBehavior)
    (senders receivers : List Pubkey) (amount : Nat) :
    (send_transactions envf senders receivers amount).map Prod.fst =
      senders ×ˢ receivers := by
  induction senders with
  | nil => rfl
  | cons s ss ih =>
      simp only [send_transactions, List.flatMap_cons, List.map_append,
        List.map_map, List.product_cons] at *
      rw [ih]
      rfl

/-- In a duplicate-free list, a member is counted exactly once. -/
theorem count_eq_one_of_nodup_mem {α : Type} [BEq α] [LawfulBEq α]
    {l : List α} {a : α} (hl : l.Nodup) (ha : a ∈ l) : l.count a = 1 := by
  induction l with
  | nil => cases ha
  | cons b t ih =>
      rcases List.nodup_cons.mp hl with ⟨hb, ht⟩
      rcases List.mem_cons.mp ha with rfl | hat
      · rw [List.count_cons_self, List.count_eq_zero.mpr hb]
      · rw [List.count_cons_of_ne (fun h => hb (by rwa [← h])) t, ih ht hat]

/-- Each report entry records the run of its own pair's unit. -/
theorem mem_send_transactions {envf : Pubkey → Pubkey → LedgerBehavior}
    {senders receivers : List Pubkey} {amount : Nat}
    {x : (Pubkey × Pubkey) × UnitTrace}
    (hx : x ∈ send_transactions envf senders receivers amount) :
    x.1.1 ∈ senders ∧ x.1.2 ∈ receivers ∧
      x.2 = runUnit (envf x.1.1 x.1.2) x.1.1 x.1.2 amount := by
  simp only [send_transactions, List.mem_flatMap, List.mem_map] at hx
  obtain ⟨s, hs, r, hr, rfl⟩ := hx
  exact ⟨hs, hr, rfl⟩

/-! ## Claim C1 -/

/-- C1: for S senders and R receivers the dispatcher spawns exactly S×R
units — one per (sender, receiver) pair — and the batch report contains
exactly S×R entries; when S = 0 or R = 0 the report is empty and no error
occurs. -/
theorem batch_spawns_cross_product (envf : Pubkey → Pubkey → LedgerBehavior)
    (senders receivers : List Pubkey) (amount : Nat) :
    (send_transactions envf senders receivers amount).length =
      senders.length * receivers.length ∧
    (senders = [] ∨ receivers = [] →
      send_transactions envf senders receivers amount = []) := by
  refine ⟨length_send_transactions envf senders receivers amount, ?_⟩
  rintro (rfl | rfl)
  · rfl
  · simp [send_transactions]

/-- C1 witness: an empty receiver list yields an empty report. -/
theorem batch_spawns_cross_product_witness :
    send_transactions (fun _ _ => timingEnv) [1, 2] [] 100 = [] :=
  (batch_spawns_cross_product (fun _ _ => timingEnv) [1, 2] [] 100).2
    (Or.inr rfl)

/-! ## Claim C4 -/

/-- C4: within a batch over duplicate-free sender and receiver lists, the
report's pairs are exactly the cross product, and every (sender, receiver)
pair of the cross product occurs exactly once — no pair is retried or
duplicated. -/
theorem outcome_unique_per_pair (envf : Pubkey → Pubkey → LedgerBehavior)
    (senders receivers : List Pubkey) (amount : Nat)
    (hS : senders.Nodup) (hR : receivers.Nodup) :
    (send_transactions envf senders receivers amount).map Prod.fst =
      senders ×ˢ receivers ∧
    ∀ s r, s ∈ senders → r ∈ receivers →
      ((send_transactions envf senders receivers amount).map Prod.fst).count
        (s, r) = 1 := by
  refine ⟨map_fst_send_transactions envf senders receivers amount, ?_⟩
  intro s r hs hr
  rw [map_fst_send_transactions]
  exact count_eq_one_of_nodup_mem (hS.product hR)
    (List.mem_product.mpr ⟨hs, hr⟩)

/-- C4 witness: a concrete 2×2 batch covers each pair exactly once. -/
theorem outcome_unique_per_pair_witness :
    ((send_transactions (fun _ _ => timingEnv) [1, 2] [3, 4] 100).map
      Prod.fst).count (2, 3) = 1 :=
  (outcome_unique_per_pair (fun _ _ => timingEnv) [1, 2] [3, 4] 100
    (by decide) (by decide)).2 2 3 (by decide) (by decide)

/-! ## Claim C2 -/

/-- C2 counterexample: with fetch latency 5, submission latency 3 and poll
latency 11, the recorded elapsed duration is 8 = tFetch + tSubmit, not the
3 the claim predicts — `start_time = Instant::now()` is sampled before
`send_sol`, which performs the blockhash fetch, so the recorded duration
includes the block-reference fetch latency. -/
theorem elapsed_includes_fetch_cex :
    (runUnit timingEnv 1 2 100).outcome =
      TransactionOutcome.submitted 42 (timingEnv.tFetch + timingEnv.tSubmit) ∧
    timingEnv.tFetch + timingEnv.tSubmit ≠ timingEnv.tSubmit := by
  constructor
  · rfl
  · decide

/-- C2 amended: the recorded elapsed duration starts at unit start, before
the block-reference fetch, and stops after submission acceptance: it equals
the fetch latency plus the submission latency, and is independent of the
confirmation-poll latency. -/
theorem elapsed_spans_fetch_and_submit (env : LedgerBehavior)
    (s r : Pubkey) (a : Nat) (bh : BlockRef) (sig : Signature)
    (hf : env.fetchResult = some bh) (hs : env.submitResult = .ok sig)
    (hc : (check_transaction_status env.statusResult).isOk = true) :
    (runUnit env s r a).outcome =
      TransactionOutcome.submitted sig (env.tFetch + env.tSubmit) ∧
    ∀ t, runUnit { env with tStatus := t } s r a = runUnit env s r a := by
  constructor
  · unfold runUnit
    rw [hf, hs]
    rcases h : check_transaction_status env.statusResult with e | u
    · rw [h] at hc
      simp [Except.isOk, Except.toBool] at hc
    · rfl
  · intro t
    unfold runUnit
    rw [hf, hs]

/-- C2 amended witness: in `timingEnv` the recorded duration is 5 + 3. -/
theorem elapsed_spans_fetch_and_submit_witness :
    (runUnit timingEnv 1 2 100).outcome =
      TransactionOutcome.submitted 42 (timingEnv.tFetch + timingEnv.tSubmit) :=
  (elapsed_spans_fetch_and_submit timingEnv 1 2 100 7 42 rfl rfl rfl).1

/-! ## Claim C3 -/

/-- C3 counterexample: when `get_latest_blockhash` fails, the `.expect` in
`send_sol` panics the task — the error is not caught and converted into a
`TransactionOutcome` variant at the unit boundary. -/
theorem fetch_failure_not_converted :
    ((runUnit panicEnv 1 2 100).outcome).converted = false := rfl

/-- C3 amended: every error arising after a successful block-reference
fetch (submission failure, status-check failure, finalized transaction
failure) is caught inside the unit and converted into an outcome variant;
a block-reference fetch failure instead panics that unit, producing no
converted outcome — but the batch still joins every spawned task, so even
then no error aborts the batch (the report keeps one entry per pair). -/
theorem errors_converted_after_fetch :
    (∀ (env : LedgerBehavior) (s r : Pubkey) (a : Nat),
      env.fetchResult.isSome = true →
        ((runUnit env s r a).outcome).converted = true) ∧
    ∀ (envf : Pubkey → Pubkey → LedgerBehavior)
      (senders receivers : List Pubkey) (amount : Nat),
      (send_transactions envf senders receivers amount).length =
        senders.length * receivers.length := by
  constructor
  · intro env s r a hf
    rcases henv : env.fetchResult with _ | bh
    · rw [henv] at hf
      cases hf
    · unfold runUnit
      rw [henv]
      rcases env.submitResult with e | sig
      · rfl
      · rcases h : check_transaction_status env.statusResult with u | e <;>
          simp [h, TransactionOutcome.converted]
  · exact length_send_transactions

/-- C3 amended witness: a unit whose submission fails still yields a
converted outcome. -/
theorem errors_converted_after_fetch_witness :
    ((runUnit submitFailEnv 1 2 100).outcome).converted = true :=
  errors_converted_after_fetch.1 submitFailEnv 1 2 100 rfl

/-! ## Claim C5 -/

/-- C5: when the submission call fails, the unit terminates at once with a
`SubmitFailed` outcome; the finalization-status poll is never issued for
that pair (zero status calls) and the submission is not retried (exactly
one submit call). -/
theorem submit_failure_no_poll (env : LedgerBehavior) (s r : Pubkey)
    (a : Nat) (bh : BlockRef) (e : SubmitErr)
    (hf : env.fetchResult = some bh) (hs : env.submitResult = .error e) :
    runUnit env s r a =
      { outcome := .submitFailed e, fetchCalls := 1, submitCalls := 1,
        statusCalls := 0, builtTx := some (mkTransaction s r a bh) } := by
  unfold runUnit
  rw [hf, hs]

/-- C5 witness: the concrete failing-submission unit. -/
theorem submit_failure_no_poll_witness :
    runUnit submitFailEnv 1 2 100 =
      { outcome := .submitFailed 77, fetchCalls := 1, submitCalls := 1,
        statusCalls := 0, builtTx := some (mkTransaction 1 2 100 9) } :=
  submit_failure_no_poll submitFailEnv 1 2 100 9 77 rfl rfl

/-! ## Claim C6 -/

/-- C6: when the submission succeeds, the finalization poll is issued
exactly once, a status-query error or a finalized-failure status yields
`ConfirmFailed` carrying the original signature, and a finalized-success
or pending (`None`) status yields `Submitted` with the recorded elapsed
time — pending is treated as success, not waited on. -/
theorem submit_success_poll_once (env : LedgerBehavior) (s r : Pubkey)
    (a : Nat) (bh : BlockRef) (sig : Signature)
    (hf : env.fetchResult = some bh) (hs : env.submitResult = .ok sig) :
    (runUnit env s r a).statusCalls = 1 ∧
    (∀ e, env.statusResult = .error e →
      (runUnit env s r a).outcome = .confirmFailed sig e) ∧
    (∀ te, env.statusResult = .ok (some (.error te)) →
      (runUnit env s r a).outcome =
        .confirmFailed sig (ClientErr.fromTx te)) ∧
    (env.statusResult = .ok (some (.ok ())) →
      (runUnit env s r a).outcome =
        .submitted sig (env.tFetch + env.tSubmit)) ∧
    (env.statusResult = .ok none →
      (runUnit env s r a).outcome =
        .submitted sig (env.tFetch + env.tSubmit)) := by
  refine ⟨?_, ?_, ?_, ?_, ?_⟩
  · unfold runUnit
    rw [hf, hs]
    rcases h : check_transaction_status env.statusResult with u | e <;> simp [h]
  · intro e he
    unfold runUnit
    rw [hf, hs]
    simp [check_transaction_status, he]
  · intro te hte
    unfold runUnit
    rw [hf, hs]
    simp [check_transaction_status, hte]
  · intro hok
    unfold runUnit
    rw [hf, hs]
    simp [check_transaction_status, hok]
  · intro hpend
    unfold runUnit
    rw [hf, hs]
    simp [check_transaction_status, hpend]

/-- C6 witness: a pending (`None`) status yields `Submitted`. -/
theorem submit_success_poll_once_witness :
    (runUnit timingEnv 1 2 100).statusCalls = 1 ∧
    (runUnit timingEnv 1 2 100).outcome =
      TransactionOutcome.submitted 42 (timingEnv.tFetch + timingEnv.tSubmit) :=
  ⟨(submit_success_poll_once timingEnv 1 2 100 7 42 rfl rfl).1,
    (submit_success_poll_once timingEnv 1 2 100 7 42 rfl rfl).2.2.2.2 rfl⟩

/-! ## Claim C7 -/

/-- C7: `check_transaction_status` returns success on a pending status
(`Ok(None)`, signature unknown / not yet visible) and on a finalized
success (`Ok(Some(Ok(_)))`); it returns an error exactly when the status
query itself fails (`Err(_)`) or the transaction finalized with an error
(`Ok(Some(Err(_)))`). -/
theorem check_status_error_iff :
    check_transaction_status (.ok none) = .ok () ∧
    (∀ u : Unit, check_transaction_status (.ok (some (.ok u))) = .ok ()) ∧
    (∀ te : TxErr, check_transaction_status (.ok (some (.error te))) =
      .error (ClientErr.fromTx te)) ∧
    (∀ e : ClientErr, check_transaction_status (.error e) = .error e) ∧
    ∀ st, (check_transaction_status st).isOk = false ↔
      ((∃ e, st = Except.error e) ∨
        ∃ te, st = .ok (some (.error te))) := by
  refine ⟨rfl, fun _ => rfl, fun _ => rfl, fun _ => rfl, ?_⟩
  intro st
  rcases st with e | v
  · simp [check_transaction_status, Except.isOk, Except.toBool]
  · rcases v with _ | ru
    · simp [check_transaction_status, Except.isOk, Except.toBool]
    · rcases ru with u | te <;>
        simp [check_transaction_status, Except.isOk, Except.toBool]

/-! ## Claim C9 -/

/-- C9: every dispatched unit fetches the block reference exactly once,
and (when the fetch succeeds) signs its transaction against the blockhash
returned by its own fetch — the block reference is fetched fresh per
attempt, immediately before building, never cached across units. -/
theorem fresh_blockhash_per_unit (envf : Pubkey → Pubkey → LedgerBehavior)
    (senders receivers : List Pubkey) (amount : Nat)
    (x : (Pubkey × Pubkey) × UnitTrace)
    (hx : x ∈ send_transactions envf senders receivers amount) :
    x.2.fetchCalls = 1 ∧
    ∀ bh, (envf x.1.1 x.1.2).fetchResult = some bh →
      x.2.builtTx = some (mkTransaction x.1.1 x.1.2 amount bh) := by
  obtain ⟨-, -, hrun⟩ := mem_send_transactions hx
  rw [hrun]
  exact ⟨runUnit_fetchCalls _ _ _ _,
    fun bh hbh => runUnit_builtTx _ _ _ _ bh hbh⟩

/-- C9 witness: in a concrete two-unit batch, each entry carries its own
pair's freshly fetched blockhash. -/
theorem fresh_blockhash_per_unit_witness :
    (((1 : Pubkey), (3 : Pubkey)),
        runUnit { timingEnv with fetchResult := some 13 } 1 3 100).2.builtTx =
      some (mkTransaction 1 3 100 13) :=
  (fresh_blockhash_per_unit
    (fun s r => { timingEnv with fetchResult := some (10 * s + r) })
    [1, 2] [3] 100
    ((1, 3), runUnit { timingEnv with fetchResult := some 13 } 1 3 100)
    (by decide)).2 13 rfl

/-! ## Decoder lemmas -/

/-- Two characters with different digit-ness are not `==`. -/
theorem digit_ne_char {c : Char} (h : c.isDigit = true) (d : Char)
    (hd : d.isDigit = false) : (c == d) = false := by
  rw [beq_eq_false_iff_ne]
  rintro rfl
  rw [h] at hd
  cases hd

/-- A decimal digit has a code point between 48 and 57. -/
theorem isDigit_toNat {c : Char} (h : c.isDigit = true) :
    48 ≤ c.toNat ∧ c.toNat ≤ 57 := by
  unfold Char.isDigit at h
  rw [Bool.and_eq_true, decide_eq_true_iff, decide_eq_true_iff] at h
  obtain ⟨h1, h2⟩ := h
  rw [ge_iff_le, UInt32.le_def, BitVec.le_def] at h1
  rw [UInt32.le_def, BitVec.le_def] at h2
  exact ⟨h1, h2⟩

/-- A decimal digit is not whitespace: no code point in 48–57 carries the
White_Space property. -/
theorem digit_not_space {c : Char} (h : c.isDigit = true) :
    isSpaceChar c = false := by
  obtain ⟨h1, h2⟩ := isDigit_toNat h
  unfold isSpaceChar
  rw [decide_eq_false_iff_not]
  omega

/-- Splitting `isDigits` at a cons cell. -/
theorem isDigits_cons {c : Char} {t : List Char}
    (h : isDigits (c :: t) = true) :
    c.isDigit = true ∧ isDigits t = true := by
  unfold isDigits at *
  rw [List.all_cons, Bool.and_eq_true] at h
  exact h

/-- A character list none of whose elements satisfy `p` is untouched by
`dropWhile p` (only the head matters, but this form is convenient). -/
theorem dropWhile_eq_self_of_all_neg (p : Char → Bool) (l : List Char)
    (h : ∀ c ∈ l, p c = false) : List.dropWhile p l = l := by
  cases l with
  | nil => rfl
  | cons a t => simp [List.dropWhile_cons, h a (by simp)]

/-- `dropWhile p` skips a prefix that satisfies `p` throughout. -/
theorem dropWhile_append_of_all (p : Char → Bool) (w l : List Char)
    (h : ∀ c ∈ w, p c = true) :
    List.dropWhile p (w ++ l) = List.dropWhile p l := by
  induction w with
  | nil => rfl
  | cons a t ih =>
      simp only [List.cons_append, List.dropWhile_cons, h a (by simp),
        if_true]
      exact ih fun c hc => h c (by simp [hc])

/-- Appending one stripped character on the right does not change the
result of a two-sided strip. -/
theorem trimEnds_append_singleton (p : Char → Bool) (c : Char)
    (hc : p c = true) (l : List Char) :
    trimEnds p (l ++ [c]) = trimEnds p l := by
  unfold trimEnds
  induction l with
  | nil => simp [List.dropWhile_cons, hc]
  | cons a t ih =>
      by_cases ha : p a
      · simpa [List.dropWhile_cons, ha] using ih
      · simp [List.dropWhile_cons, ha, hc, List.reverse_append,
          List.reverse_cons]

/-- Wrapping with one stripped character on each side does not change the
result of a two-sided strip. -/
theorem trimEnds_wrap (p : Char → Bool) (c₁ c₂ : Char)
    (h1 : p c₁ = true) (h2 : p c₂ = true) (s : List Char) :
    trimEnds p (c₁ :: (s ++ [c₂])) = trimEnds p s := by
  have : trimEnds p (c₁ :: (s ++ [c₂])) = trimEnds p (s ++ [c₂]) := by
    unfold trimEnds
    rw [List.dropWhile_cons, if_pos h1]
  rw [this, trimEnds_append_singleton p c₂ h2 s]

/-- A character list none of whose elements are stripped is untouched by a
two-sided strip. -/
theorem trimEnds_eq_self_of_all_neg (p : Char → Bool) (l : List Char)
    (h : ∀ c ∈ l, p c = false) : trimEnds p l = l := by
  unfold trimEnds
  rw [dropWhile_eq_self_of_all_neg p l h,
    dropWhile_eq_self_of_all_neg p l.reverse
      (fun c hc => h c (List.mem_reverse.mp hc)),
    List.reverse_reverse]

/-! ## Claim C10 -/

/-- C10: the decoder rejects the empty string and the empty list `"[]"`
(their single split piece is empty, which fails numeric parsing), and the
surrounding brackets are optional: wrapping any input in `[` and `]`
decodes to the same result, because `trim_matches` strips every leading
and trailing bracket character before parsing. -/
theorem brackets_optional :
    (parse_bytes_from_string []).isOk = false ∧
    (parse_bytes_from_string ['[', ']']).isOk = false ∧
    ∀ s, parse_bytes_from_string ('[' :: (s ++ [']'])) =
      parse_bytes_from_string s := by
  refine ⟨rfl, rfl, ?_⟩
  intro s
  unfold parse_bytes_from_string
  rw [trimEnds_wrap isBracketChar '[' ']' rfl rfl s]

/-! ## Claim C8: lemma stack -/

/-- Decimal accumulation never decreases the accumulator. -/
theorem le_decValueFrom : ∀ (l : List Char) (acc : Nat),
    acc ≤ decValueFrom acc l := by
  intro l
  induction l with
  | nil => intro acc; exact Nat.le_refl acc
  | cons c t ih =>
      intro acc
      refine Nat.le_trans ?_ (ih (decStep acc c))
      unfold decStep
      calc acc = acc * 1 := (Nat.mul_one acc).symm
        _ ≤ acc * 10 := Nat.mul_le_mul_left acc (by norm_num)
        _ ≤ acc * 10 + (c.toNat - 48) := Nat.le_add_right _ _

/-- `decValueFrom` unfolds one step. -/
theorem decValueFrom_cons (acc : Nat) (c : Char) (t : List Char) :
    decValueFrom acc (c :: t) = decValueFrom (decStep acc c) t := rfl

/-- On a digit string, the `u16` digit loop computes the decimal value,
failing exactly when it exceeds `u16::MAX`. -/
theorem parseDigitsAux_eq : ∀ (l : List Char), isDigits l = true →
    ∀ acc, acc ≤ 65535 →
    parseDigitsAux l acc =
      if decValueFrom acc l ≤ 65535 then some (decValueFrom acc l)
      else none := by
  intro l
  induction l with
  | nil =>
      intro _ acc hacc
      simp [parseDigitsAux, decValueFrom, hacc]
  | cons c t ih =>
      intro hl acc hacc
      have hc : c.isDigit = true := (isDigits_cons hl).1
      have ht : isDigits t = true := (isDigits_cons hl).2
      unfold parseDigitsAux
      rw [if_pos hc]
      by_cases hov : 65535 < decStep acc c
      · rw [if_pos hov, decValueFrom_cons]
        have hbig : 65535 < decValueFrom (decStep acc c) t :=
          Nat.lt_of_lt_of_le hov (le_decValueFrom t (decStep acc c))
        rw [if_neg (by omega)]
      · rw [if_neg hov, decValueFrom_cons,
          ih ht (decStep acc c) (Nat.le_of_not_lt hov)]

/-- On a nonempty digit string, `parse::<u16>` returns the decimal value
when it fits in a `u16` and fails otherwise. -/
theorem parseU16_digits (d : List Char) (hd : d ≠ [])
    (hdig : isDigits d = true) :
    parseU16 d =
      if decValue d ≤ 65535 then some (decValue d) else none := by
  rcases d with _ | ⟨c, t⟩
  · cases hd rfl
  · have hc : c.isDigit = true := (isDigits_cons hdig).1
    simp only [parseU16, digit_ne_char hc '+' (by decide),
      digit_ne_char hc '-' (by decide), Bool.false_eq_true, if_false]
    exact parseDigitsAux_eq (c :: t) hdig 0 (by norm_num)

/-- `str::trim` on whitespace-padded digits yields the digits. -/
theorem trimEnds_space_digits (w1 d w2 : List Char)
    (h1 : ∀ c ∈ w1, isSpaceChar c = true)
    (h2 : ∀ c ∈ w2, isSpaceChar c = true)
    (hd : d ≠ []) (hdig : isDigits d = true) :
    trimEnds isSpaceChar (w1 ++ d ++ w2) = d := by
  obtain ⟨c, t, rfl⟩ : ∃ c t, d = c :: t := by
    rcases d with _ | ⟨c, t⟩
    · cases hd rfl
    · exact ⟨c, t, rfl⟩
  have hc : c.isDigit = true := (isDigits_cons hdig).1
  have hall : ∀ x ∈ c :: t, x.isDigit = true := by
    intro x hx
    exact List.all_eq_true.mp hdig x hx
  unfold trimEnds
  rw [List.append_assoc, dropWhile_append_of_all _ w1 _ h1]
  rw [List.cons_append, List.dropWhile_cons, digit_not_space hc]
  simp only [Bool.false_eq_true, if_false]
  rw [List.reverse_cons, List.reverse_append, List.append_assoc,
    dropWhile_append_of_all _ w2.reverse _
      (fun x hx => h2 x (List.mem_reverse.mp hx))]
  obtain ⟨c', t', he⟩ : ∃ c' t', t.reverse ++ [c] = c' :: t' := by
    rcases hrc : t.reverse ++ [c] with _ | ⟨c', t'⟩
    · exact absurd hrc (by simp)
    · exact ⟨c', t', rfl⟩
  have hc' : c'.isDigit = true := by
    have hmem : c' ∈ t.reverse ++ [c] := by rw [he]; simp
    rcases List.mem_append.mp hmem with hm | hm
    · exact hall c' (List.mem_cons_of_mem c (List.mem_reverse.mp hm))
    · rw [List.mem_singleton.mp hm]; exact hc
  rw [he, List.dropWhile_cons, digit_not_space hc']
  simp only [Bool.false_eq_true, if_false]
  rw [← he]
  simp

/-- An entry denoting a byte parses to its decimal value. -/
theorem parse_byte_entry_good {e : List Char} (he : goodByteEntry e) :
    parse_byte_entry e = .ok (entryVal e) := by
  obtain ⟨w1, d, w2, rfl, h1, h2, hd, hdig, hle⟩ := he
  have htrim : trimEnds isSpaceChar (w1 ++ d ++ w2) = d :=
    trimEnds_space_digits w1 d w2 (List.all_eq_true.mp h1)
      (List.all_eq_true.mp h2) hd hdig
  unfold parse_byte_entry entryVal
  rw [htrim, parseU16_digits d hd hdig, if_pos (by omega)]
  have hnl : ¬(255 < decValue d) := by omega
  simp [hnl]

/-- A pure digit entry whose value exceeds 255 is rejected: either the
`u16` parse overflows (above 65535) or the explicit byte-range check
fires. -/
theorem parse_byte_entry_over {e : List Char} (hd : e ≠ [])
    (hdig : isDigits e = true) (hover : 255 < decValue e) :
    (parse_byte_entry e).isOk = false := by
  have htrim : trimEnds isSpaceChar e = e := by
    have := trimEnds_space_digits [] e [] (by simp) (by simp) hd hdig
    simpa using this
  unfold parse_byte_entry
  rw [htrim, parseU16_digits e hd hdig]
  by_cases hcap : decValue e ≤ 65535
  · rw [if_pos hcap]
    simp only [if_pos hover, Except.isOk, Except.toBool]
  · rw [if_neg hcap]
    rfl

/-- If the digit loop accepts a string, every character in it is a digit. -/
theorem parseDigitsAux_digits : ∀ (l : List Char) (acc n : Nat),
    parseDigitsAux l acc = some n → ∀ c ∈ l, c.isDigit = true := by
  intro l
  induction l with
  | nil => intro _ _ _ c hc; cases hc
  | cons a t ih =>
      intro acc n h c hc
      unfold parseDigitsAux at h
      by_cases ha : a.isDigit = true
      · rw [if_pos ha] at h
        by_cases hov : 65535 < decStep acc a
        · rw [if_pos hov] at h; cases h
        · rw [if_neg hov] at h
          rcases List.mem_cons.mp hc with rfl | hct
          · exact ha
          · exact ih (decStep acc a) n h c hct
      · rw [if_neg ha] at h; cases h

/-- If `parse::<u16>` accepts a string, every character is a digit or a
sign. -/
theorem parseU16_chars {l : List Char} {n : Nat} (h : parseU16 l = some n) :
    ∀ c ∈ l, c.isDigit = true ∨ c = '+' ∨ c = '-' := by
  intro c hc
  rcases l with _ | ⟨a, t⟩
  · cases hc
  · simp only [parseU16] at h
    by_cases hp : (a == '+') = true
    · rw [if_pos hp] at h
      by_cases hemp : t.isEmpty = true
      · rw [if_pos hemp] at h; cases h
      · rw [if_neg hemp] at h
        rcases List.mem_cons.mp hc with rfl | hct
        · exact Or.inr (Or.inl (eq_of_beq hp))
        · exact Or.inl (parseDigitsAux_digits t 0 n h c hct)
    · rw [if_neg hp] at h
      by_cases hm : (a == '-') = true
      · rw [if_pos hm] at h
        by_cases hemp : t.isEmpty = true
        · rw [if_pos hemp] at h; cases h
        · rw [if_neg hemp] at h
          rcases hdt : parseDigitsAux t 0 with _ | m
          · rw [hdt] at h; cases h
          · rcases List.mem_cons.mp hc with rfl | hct
            · exact Or.inr (Or.inr (eq_of_beq hm))
            · exact Or.inl (parseDigitsAux_digits t 0 m hdt c hct)
      · rw [if_neg hm] at h
        exact Or.inl (parseDigitsAux_digits (a :: t) 0 n h c hc)

/-- A non-numeric entry is rejected. -/
theorem parse_byte_entry_nonNumeric {e : List Char}
    (h : nonNumericEntry e) : (parse_byte_entry e).isOk = false := by
  obtain ⟨c, hc, hnd, hnp, hnm⟩ := h
  rcases hp : parseU16 (trimEnds isSpaceChar e) with _ | n
  · simp [parse_byte_entry, hp, Except.isOk, Except.toBool]
  · rcases parseU16_chars hp c hc with hdg | rfl | rfl
    · rw [hdg] at hnd; cases hnd
    · exact absurd rfl hnp
    · exact absurd rfl hnm

/-- Collecting a list of per-entry successes yields the list of values. -/
theorem collectResults_map_ok {es : List (List Char)}
    (f : List Char → Nat)
    (h : ∀ e ∈ es, parse_byte_entry e = .ok (f e)) :
    collectResults (es.map parse_byte_entry) = .ok (es.map f) := by
  induction es with
  | nil => rfl
  | cons e t ih =>
      rw [List.map_cons, List.map_cons]
      rw [h e (by simp)]
      unfold collectResults
      rw [ih fun x hx => h x (by simp [hx])]

/-- One failed entry makes the whole collection fail. -/
theorem collectResults_error_of_mem {rs : List (Except String Nat)}
    {x : Except String Nat} (hx : x ∈ rs) (hxe : x.isOk = false) :
    (collectResults rs).isOk = false := by
  induction rs with
  | nil => cases hx
  | cons a t ih =>
      rcases a with m | v
      · simp [collectResults, Except.isOk, Except.toBool]
      · rcases List.mem_cons.mp hx with rfl | hxt
        · simp [Except.isOk, Except.toBool] at hxe
        · have hrec := ih hxt
          rcases hct : collectResults t with m | vs
          · simp [collectResults, hct, Except.isOk, Except.toBool]
          · rw [hct] at hrec
            simp [Except.isOk, Except.toBool] at hrec

/-- Splitting after a comma-free prefix peels that prefix off. -/
theorem splitOnComma_append (e t : List Char)
    (he : ∀ c ∈ e, (c == ',') = false) :
    splitOnComma (e ++ ',' :: t) = e :: splitOnComma t := by
  induction e with
  | nil => simp [splitOnComma]
  | cons a e' ih =>
      have ha := he a (by simp)
      have ih' : splitOnComma (e' ++ ',' :: t) = e' :: splitOnComma t :=
        ih fun c hc => he c (by simp [hc])
      show splitOnComma (a :: (e' ++ ',' :: t)) = (a :: e') :: splitOnComma t
      rw [splitOnComma, ha]
      simp only [Bool.false_eq_true, if_false]
      rw [ih']

/-- A comma-free string splits into itself. -/
theorem splitOnComma_no_comma (e : List Char)
    (he : ∀ c ∈ e, (c == ',') = false) : splitOnComma e = [e] := by
  induction e with
  | nil => rfl
  | cons a t ih =>
      have ha := he a (by simp)
      unfold splitOnComma
      rw [ha]
      simp only [Bool.false_eq_true, if_false]
      rw [ih fun c hc => he c (by simp [hc])]

/-- Splitting undoes comma-joining of comma-free entries. -/
theorem splitOnComma_interComma : ∀ (es : List (List Char)), es ≠ [] →
    (∀ e ∈ es, ∀ c ∈ e, (c == ',') = false) →
    splitOnComma (interComma es) = es := by
  intro es
  induction es with
  | nil => intro h; cases h rfl
  | cons e t ih =>
      intro _ he
      rcases t with _ | ⟨e2, t'⟩
      · exact splitOnComma_no_comma e (he e (by simp))
      · rw [show interComma (e :: e2 :: t') =
            e ++ ',' :: interComma (e2 :: t') from rfl]
        rw [splitOnComma_append e _ (he e (by simp))]
        rw [ih (by simp) fun x hx c hc => he x (by simp [hx]) c hc]

/-- Characters of a comma-joined list are commas or entry characters. -/
theorem mem_interComma {c : Char} : ∀ {es : List (List Char)},
    c ∈ interComma es → c = ',' ∨ ∃ e ∈ es, c ∈ e := by
  intro es
  induction es with
  | nil => intro h; cases h
  | cons e t ih =>
      intro h
      rcases t with _ | ⟨e2, t'⟩
      · exact Or.inr ⟨e, by simp, h⟩
      · rw [show interComma (e :: e2 :: t') =
            e ++ ',' :: interComma (e2 :: t') from rfl] at h
        rcases List.mem_append.mp h with h1 | h2
        · exact Or.inr ⟨e, by simp, h1⟩
        · rcases List.mem_cons.mp h2 with rfl | h3
          · exact Or.inl rfl
          · rcases ih h3 with h4 | ⟨e', he', hc'⟩
            · exact Or.inl h4
            · exact Or.inr ⟨e', by simp [he'], hc'⟩

/-- On separator-free entries the decoder reduces to per-entry parsing:
the brackets are stripped and the comma split recovers the entries. -/
theorem parse_bytes_renderList (es : List (List Char)) (hne : es ≠ [])
    (hsep : ∀ e ∈ es, sepFree e) :
    parse_bytes_from_string (renderList es) =
      collectResults (es.map parse_byte_entry) := by
  unfold parse_bytes_from_string renderList
  rw [trimEnds_wrap isBracketChar '[' ']' rfl rfl]
  rw [trimEnds_eq_self_of_all_neg isBracketChar (interComma es) ?hbr]
  show collectResults ((splitOnComma (interComma es)).map parse_byte_entry) =
    collectResults (es.map parse_byte_entry)
  rw [splitOnComma_interComma es hne ?hcm]
  case hbr =>
    intro c hc
    rcases mem_interComma hc with rfl | ⟨e, he, hce⟩
    · rfl
    · obtain ⟨-, hb1, hb2⟩ := hsep e he c hce
      unfold isBracketChar
      rw [beq_eq_false_iff_ne.mpr hb1, beq_eq_false_iff_ne.mpr hb2]
      rfl
  case hcm =>
    intro e he c hc
    exact beq_eq_false_iff_ne.mpr ((hsep e he c hc).1)

/-- A digit is not a separator or bracket character. -/
theorem digit_sepFree {c : Char} (h : c.isDigit = true) :
    c ≠ ',' ∧ c ≠ '[' ∧ c ≠ ']' := by
  refine ⟨fun hc => ?_, fun hc => ?_, fun hc => ?_⟩ <;>
    (subst hc; exact absurd h (by decide))

/-- A whitespace character is not a separator or bracket character. -/
theorem space_sepFree {c : Char} (h : isSpaceChar c = true) :
    c ≠ ',' ∧ c ≠ '[' ∧ c ≠ ']' := by
  unfold isSpaceChar at h
  rw [decide_eq_true_iff] at h
  refine ⟨fun hc => ?_, fun hc => ?_, fun hc => ?_⟩ <;>
    (subst hc; exact absurd h (by decide))

/-- Byte-denoting entries contain no separator or bracket characters. -/
theorem sepFree_of_good {e : List Char} (he : goodByteEntry e) :
    sepFree e := by
  obtain ⟨w1, d, w2, rfl, h1, h2, hd, hdig, hle⟩ := he
  intro c hc
  rcases List.mem_append.mp hc with h12 | hw2
  · rcases List.mem_append.mp h12 with hw1 | hdd
    · exact space_sepFree (List.all_eq_true.mp h1 c hw1)
    · exact digit_sepFree (List.all_eq_true.mp hdig c hdd)
  · exact space_sepFree (List.all_eq_true.mp h2 c hw2)

/-! ## Claim C8 -/

/-- C8: the decoder accepts a bracketed, comma-separated list of decimal
byte values (each 0–255, optionally whitespace-padded) and returns the
corresponding byte vector; an entry that is a decimal number above 255
fails (through `u16` overflow or the explicit byte-range check), and a
non-numeric entry — one whose trimmed text contains a character that is
neither a decimal digit nor a sign — fails. -/
theorem parse_bytes_byte_list :
    (∀ es : List (List Char), es ≠ [] → (∀ e ∈ es, goodByteEntry e) →
      parse_bytes_from_string (renderList es) =
        .ok (es.map entryVal)) ∧
    (∀ es : List (List Char), es ≠ [] → (∀ e ∈ es, sepFree e) →
      (∃ e ∈ es, e ≠ [] ∧ isDigits e = true ∧ 255 < decValue e) →
      (parse_bytes_from_string (renderList es)).isOk = false) ∧
    (∀ es : List (List Char), es ≠ [] → (∀ e ∈ es, sepFree e) →
      (∃ e ∈ es, nonNumericEntry e) →
      (parse_bytes_from_string (renderList es)).isOk = false) := by
  refine ⟨?_, ?_, ?_⟩
  · intro es hne hgood
    rw [parse_bytes_renderList es hne
      fun e he => sepFree_of_good (hgood e he)]
    exact collectResults_map_ok entryVal
      fun e he => parse_byte_entry_good (hgood e he)
  · intro es hne hsep hex
    obtain ⟨e, he, hd, hdig, hover⟩ := hex
    rw [parse_bytes_renderList es hne hsep]
    exact collectResults_error_of_mem
      (List.mem_map_of_mem parse_byte_entry he)
      (parse_byte_entry_over hd hdig hover)
  · intro es hne hsep hex
    obtain ⟨e, he, hnn⟩ := hex
    rw [parse_bytes_renderList es hne hsep]
    exact collectResults_error_of_mem
      (List.mem_map_of_mem parse_byte_entry he)
      (parse_byte_entry_nonNumeric hnn)

/-- C8 witness: the input `[12, 3]` decodes to the bytes 12 and 3. -/
theorem parse_bytes_byte_list_witness :
    parse_bytes_from_string (renderList [['1', '2'], [' ', '3']]) =
      Except.ok [12, 3] := by
  have h := parse_bytes_byte_list.1 [['1', '2'], [' ', '3']]
    (by simp)
    (by
      intro e he
      rcases List.mem_cons.mp he with rfl | he2
      · exact ⟨[], ['1', '2'], [], by simp, by decide, by decide, by decide,
          by decide, by decide⟩
      · rcases List.mem_cons.mp he2 with rfl | he3
        · exact ⟨[' '], ['3'], [], by simp, by decide, by decide, by decide,
            by decide, by decide⟩
        · cases he3)
  rw [h]
  rfl

end Broadcaster
